import Mathlib

/-!
Verification of the transport-system repository's scheduling, filtering and
import/export logic against its specification.

The embedding translates the TypeScript source:
* `src/pages/Equipment.tsx` (the `ScheduleCalendar` component): scheduling engine.
* `src/types/order.ts` (the `OrderManagement` page): order records, tab filter,
  search/sort pipeline, edit-form submission, deletion.
* `src/utils/storage.ts`: JSON export/import.

JavaScript strings are Lean `String`s, numbers are `Int` (the code never relies
on fractional values in the verified claims), `T | undefined` is `Option T`, and
JavaScript truthiness of optional strings (`undefined` and `""` are falsy) is
the function `truthy` below.
-/

set_option maxHeartbeats 1000000

namespace TS

/-- Order status, from `src/types/order.ts`: `status?: 'active' | 'finished'`. -/
inductive OrderStatus where
  | active
  | finished
deriving DecidableEq

/-- The `Order` interface from `src/types/order.ts` lines 1-14. Optional fields
(`driverId?`, `employeeId?`, `status?`) become `Option`. -/
structure Order where
  id : String
  customer : String
  cargoDescription : String
  price : Int
  pickupTime : String
  pickupAddress : String
  deliverBeforeTime : String
  deliverBeforeAddress : String
  equipmentType : String
  driverId : Option String
  employeeId : Option String
  status : Option OrderStatus
deriving DecidableEq

/-- The `ScheduledOrder` interface from `Equipment.tsx` lines 519-523: the
calendar's unit of occupancy. `date` is the already-formatted `YYYY-MM-DD`
string (`date.toISOString().split('T')[0]` in the component). -/
structure ScheduledOrder where
  orderId : String
  date : String
  timeSlot : String
deriving DecidableEq

/-- JavaScript truthiness of a `string | undefined` value: `undefined` and the
empty string are falsy, every other string is truthy. -/
def truthy : Option String → Bool
  | none => false
  | some s => !(s == "")

/-- `getScheduledOrder` from `Equipment.tsx` lines 561-570: find the entry at a
`(date, timeSlot)` pair, then resolve its `orderId` against the `orders` prop. -/
def getScheduledOrder (orders : List Order) (scheduled : List ScheduledOrder)
    (dateStr timeSlot : String) : Option Order :=
  match scheduled.find? (fun s => s.date == dateStr && s.timeSlot == timeSlot) with
  | some s => orders.find? (fun o => o.id == s.orderId)
  | none => none

/-- `hasOrder` in the calendar-cell render, `Equipment.tsx` line 858:
the cell is treated as occupied exactly when its entry resolves to an order. -/
def hasOrder (orders : List Order) (scheduled : List ScheduledOrder)
    (dateStr timeSlot : String) : Bool :=
  (getScheduledOrder orders scheduled dateStr timeSlot).isSome

/-- `isDraggingSameOrder` in the calendar-cell render, `Equipment.tsx`
lines 859-861: the drag in progress started from exactly this cell. -/
def isDraggingSameOrder (dso : Option ScheduledOrder) (dateStr timeSlot : String) : Bool :=
  match dso with
  | some e => e.date == dateStr && e.timeSlot == timeSlot
  | none => false

/-- `handleDrop` from `Equipment.tsx` lines 596-631, as a function of the
scheduled-order list. All entries of the dragged order are filtered away;
a drop on the drag's own source cell returns early with the state untouched;
otherwise the new entry is pushed. -/
def handleDrop (scheduled : List ScheduledOrder) (draggedId : String)
    (dso : Option ScheduledOrder) (dateStr timeSlot : String) : List ScheduledOrder :=
  let updated := scheduled.filter (fun s => s.orderId != draggedId)
  match dso with
  | some e =>
      if e.date == dateStr && e.timeSlot == timeSlot then
        scheduled
      else
        updated ++ [⟨draggedId, dateStr, timeSlot⟩]
  | none => updated ++ [⟨draggedId, dateStr, timeSlot⟩]

/-- A drop on a calendar cell as the user interface performs it: the `onDrop`
handler of the cell (`Equipment.tsx` lines 872-877) invokes `handleDrop` only
when `!hasOrder || isDraggingSameOrder`; otherwise the drop is refused and the
state is left untouched. -/
def dropOnSlot (orders : List Order) (scheduled : List ScheduledOrder)
    (draggedId : String) (dso : Option ScheduledOrder)
    (dateStr timeSlot : String) : List ScheduledOrder :=
  if !(hasOrder orders scheduled dateStr timeSlot) || isDraggingSameOrder dso dateStr timeSlot then
    handleDrop scheduled draggedId dso dateStr timeSlot
  else
    scheduled

/-- `handleSidebarDrop` from `Equipment.tsx` lines 633-644: dropping on the
sidebar unschedules the dragged order, but only when the drag started from a
scheduled entry (`draggedOrder && draggedScheduledOrder`). -/
def handleSidebarDrop (scheduled : List ScheduledOrder) (draggedId : String)
    (dso : Option ScheduledOrder) : List ScheduledOrder :=
  match dso with
  | some _ => scheduled.filter (fun s => s.orderId != draggedId)
  | none => scheduled

/-- `handleDeleteSelected` from `src/types/order.ts` lines 822-829: hard-delete
every order whose id is in the selected set. -/
def handleDeleteSelected (orders : List Order) (selected : List String) : List Order :=
  orders.filter (fun o => !(selected.contains o.id))

/-- Well-formedness of an in-flight drag, from the two drag-start paths.
A sidebar drag (`handleDragStart`, lines 577-581) carries an order from
`unscheduledOrders` (lines 572-575) and no scheduled entry. A calendar drag
(`handleScheduledOrderDragStart`, lines 583-587, invoked at lines 889-899)
carries the entry found at the source cell together with the order it resolves
to; since the entry was found at the cell's own coordinates, the lookup at the
entry's coordinates returns the entry itself. -/
def dragWF (orders : List Order) (scheduled : List ScheduledOrder)
    (o : Order) (dso : Option ScheduledOrder) : Prop :=
  match dso with
  | none => o ∈ orders ∧ ∀ s ∈ scheduled, s.orderId ≠ o.id
  | some e =>
      scheduled.find? (fun s => s.date == e.date && s.timeSlot == e.timeSlot) = some e ∧
      orders.find? (fun x => x.id == e.orderId) = some o

/-- The data-model invariant "the `(date, timeSlot)` pair is a unique key
across all ScheduledOrder entries". -/
def pairUnique (scheduled : List ScheduledOrder) : Prop :=
  scheduled.Pairwise (fun a b => ¬(a.date = b.date ∧ a.timeSlot = b.timeSlot))

/-- The data-model invariant "at most one ScheduledOrder per orderId". -/
def orderIdUnique (scheduled : List ScheduledOrder) : Prop :=
  scheduled.Pairwise (fun a b => a.orderId ≠ b.orderId)

/-- The data-model invariant "every `ScheduledOrder.orderId` must reference an
existing Order". -/
def refIntegrity (orders : List Order) (scheduled : List ScheduledOrder) : Prop :=
  ∀ s ∈ scheduled, ∃ o ∈ orders, o.id = s.orderId

/-- The full state of the scheduling engine: the `orders` prop together with
the component's `scheduledOrders` state. -/
structure EngineState where
  orders : List Order
  scheduled : List ScheduledOrder
deriving DecidableEq

/-- A calendar-cell drop at the state level: only `scheduledOrders` is updated
(`handleDrop` calls `setScheduledOrders` and nothing else). -/
def dropOp (σ : EngineState) (draggedId : String) (dso : Option ScheduledOrder)
    (dateStr timeSlot : String) : EngineState :=
  { σ with scheduled := dropOnSlot σ.orders σ.scheduled draggedId dso dateStr timeSlot }

/-- A sidebar drop at the state level: only `scheduledOrders` is updated. -/
def sidebarOp (σ : EngineState) (draggedId : String)
    (dso : Option ScheduledOrder) : EngineState :=
  { σ with scheduled := handleSidebarDrop σ.scheduled draggedId dso }

/-- Deletion of selected orders at the state level: the order collection
shrinks, while the component's `scheduledOrders` state is not touched by any
code path of the repository. -/
def deleteOp (σ : EngineState) (selected : List String) : EngineState :=
  { σ with orders := handleDeleteSelected σ.orders selected }

instance (L : List ScheduledOrder) : Decidable (pairUnique L) :=
  decidable_of_iff
    (List.Pairwise (fun a b : ScheduledOrder =>
      ¬(a.date = b.date ∧ a.timeSlot = b.timeSlot)) L) Iff.rfl

instance (L : List ScheduledOrder) : Decidable (orderIdUnique L) :=
  decidable_of_iff
    (List.Pairwise (fun a b : ScheduledOrder => a.orderId ≠ b.orderId) L) Iff.rfl

instance (orders : List Order) (L : List ScheduledOrder) :
    Decidable (refIntegrity orders L) :=
  decidable_of_iff (∀ s ∈ L, ∃ o ∈ orders, o.id = s.orderId) Iff.rfl

instance (orders : List Order) (L : List ScheduledOrder) (o : Order)
    (dso : Option ScheduledOrder) : Decidable (dragWF orders L o dso) :=
  match dso with
  | none => inferInstanceAs (Decidable (_ ∧ _))
  | some _ => inferInstanceAs (Decidable (_ ∧ _))

/-- Two entries of a pair-unique list that sit at the same `(date, timeSlot)`
pair are the same entry. -/
theorem pairUnique_eq_of_same_pair {L : List ScheduledOrder} {a b : ScheduledOrder}
    (hpu : pairUnique L) (ha : a ∈ L) (hb : b ∈ L)
    (hd : a.date = b.date) (ht : a.timeSlot = b.timeSlot) : a = b := by
  by_contra hne
  have hsymm : Symmetric (fun a b : ScheduledOrder =>
      ¬(a.date = b.date ∧ a.timeSlot = b.timeSlot)) := by
    intro x y h hxy
    exact h ⟨hxy.1.symm, hxy.2.symm⟩
  exact (List.Pairwise.forall hsymm hpu ha hb hne) ⟨hd, ht⟩

/-- `handleDrop` preserves per-order uniqueness unconditionally: it first
removes every entry of the dragged order, then appends at most one. -/
theorem orderIdUnique_handleDrop (L : List ScheduledOrder) (draggedId : String)
    (dso : Option ScheduledOrder) (d t : String) (h : orderIdUnique L) :
    orderIdUnique (handleDrop L draggedId dso d t) := by
  have hfilter : orderIdUnique (L.filter (fun s => s.orderId != draggedId)) :=
    h.sublist (List.filter_sublist L)
  have happ : orderIdUnique
      (L.filter (fun s => s.orderId != draggedId) ++ [⟨draggedId, d, t⟩]) := by
    rw [orderIdUnique, List.pairwise_append]
    refine ⟨hfilter, List.pairwise_singleton _ _, ?_⟩
    intro a hamem b hbmem
    have hane : (a.orderId != draggedId) = true := (List.mem_filter.mp hamem).2
    have hb : b = ⟨draggedId, d, t⟩ := List.mem_singleton.mp hbmem
    subst hb
    simpa using hane
  unfold handleDrop
  cases dso with
  | none => exact happ
  | some e =>
      by_cases hsame : (e.date == d && e.timeSlot == t) = true
      · simpa [hsame] using h
      · simpa [hsame] using happ

/-- The gated drop preserves per-order uniqueness unconditionally. -/
theorem orderIdUnique_dropOnSlot (orders : List Order) (L : List ScheduledOrder)
    (draggedId : String) (dso : Option ScheduledOrder) (d t : String)
    (h : orderIdUnique L) :
    orderIdUnique (dropOnSlot orders L draggedId dso d t) := by
  unfold dropOnSlot
  split
  · exact orderIdUnique_handleDrop L draggedId dso d t h
  · exact h

/-- The sidebar drop preserves per-order uniqueness unconditionally. -/
theorem orderIdUnique_handleSidebarDrop (L : List ScheduledOrder) (draggedId : String)
    (dso : Option ScheduledOrder) (h : orderIdUnique L) :
    orderIdUnique (handleSidebarDrop L draggedId dso) := by
  unfold handleSidebarDrop
  cases dso with
  | none => exact h
  | some e => exact h.sublist (List.filter_sublist L)

/-- A sample order with no driver, used in concrete runs below. -/
def sampleOrder1 : Order :=
  ⟨"ORD-1", "Acme", "crates", 100, "2024-06-01T08:00", "Oslo", "2024-06-05T18:00",
   "Bergen", "Van - Small", none, none, some .active⟩

/-- A second sample order, used in concrete runs below. -/
def sampleOrder2 : Order :=
  ⟨"ORD-2", "Birk", "pallets", 200, "2024-06-02T08:00", "Oslo", "2024-06-06T18:00",
   "Trondheim", "Van - Small", none, none, some .active⟩

/-- Concrete engine run, step 0: two orders, nothing scheduled. -/
def schedRun0 : EngineState := ⟨[sampleOrder1, sampleOrder2], []⟩

/-- Step 1: `ORD-1` is dragged from the sidebar and dropped at
`(2024-06-03, 09:00)`. -/
def schedRun1 : EngineState := dropOp schedRun0 "ORD-1" none "2024-06-03" "09:00"

/-- Step 2: `ORD-1` is deleted from the order collection while its entry is
still on the calendar. -/
def schedRun2 : EngineState := deleteOp schedRun1 ["ORD-1"]

/-- Step 3: `ORD-2` is dragged from the sidebar and dropped at the same
`(2024-06-03, 09:00)` slot. -/
def schedRun3 : EngineState := dropOp schedRun2 "ORD-2" none "2024-06-03" "09:00"

/-- C1: the `(date, timeSlot)` unique-key invariant is violated on a reachable
state. Both drags are well-formed, yet after scheduling `ORD-1` at
`(2024-06-03, 09:00)`, deleting `ORD-1`, and dropping `ORD-2` on the same
slot, the engine holds two ScheduledOrder entries occupying that pair: the
dangling `ORD-1` entry survives the deletion, the cell's `hasOrder` gate
resolves it to no order and therefore accepts the second drop. -/
theorem C1_pair_key_violated :
    dragWF schedRun0.orders schedRun0.scheduled sampleOrder1 none ∧
    dragWF schedRun2.orders schedRun2.scheduled sampleOrder2 none ∧
    schedRun3.scheduled =
      [⟨"ORD-1", "2024-06-03", "09:00"⟩, ⟨"ORD-2", "2024-06-03", "09:00"⟩] ∧
    ¬ pairUnique schedRun3.scheduled := by
  decide

/-- C5: referential integrity is violated on a reachable state. After
scheduling `ORD-1` and then deleting it, the ScheduledOrder entry for
`ORD-1` is still present (no code path removes entries when an order is
deleted), while no order with that id exists any more. -/
theorem C5_dangling_reference :
    schedRun2.orders = [sampleOrder2] ∧
    schedRun2.scheduled = [⟨"ORD-1", "2024-06-03", "09:00"⟩] ∧
    (∀ o ∈ schedRun2.orders, o.id ≠ "ORD-1") ∧
    ¬ refIntegrity schedRun2.orders schedRun2.scheduled := by
  decide

/-- C2: dropping an order onto a slot occupied by a different order is
rejected and the ScheduledOrder set is exactly unchanged. Hypotheses:
referential integrity of the state, a well-formed drag, and an entry of a
different order found at the target pair. -/
theorem C2_occupied_drop_rejected
    (orders : List Order) (L : List ScheduledOrder) (o : Order)
    (dso : Option ScheduledOrder) (d t : String) (s : ScheduledOrder)
    (hri : refIntegrity orders L) (hwf : dragWF orders L o dso)
    (hocc : L.find? (fun e => e.date == d && e.timeSlot == t) = some s)
    (hdiff : s.orderId ≠ o.id) :
    dropOnSlot orders L o.id dso d t = L := by
  have hmem : s ∈ L := List.mem_of_find?_eq_some hocc
  obtain ⟨ord, hordmem, hordid⟩ := hri s hmem
  have hho : hasOrder orders L d t = true := by
    unfold hasOrder getScheduledOrder
    rw [hocc]
    exact List.find?_isSome.mpr ⟨ord, hordmem, by simp [hordid]⟩
  have hids : isDraggingSameOrder dso d t = false := by
    cases dso with
    | none => rfl
    | some e =>
        simp only [dragWF] at hwf
        obtain ⟨hfind, hres⟩ := hwf
        have hoid : o.id = e.orderId := by
          have := List.find?_some hres
          simpa using this
        unfold isDraggingSameOrder
        by_contra hcon
        rw [Bool.not_eq_false, Bool.and_eq_true, beq_iff_eq, beq_iff_eq] at hcon
        obtain ⟨hed, het⟩ := hcon
        rw [hed, het] at hfind
        rw [hfind] at hocc
        have : e = s := by injection hocc
        subst this
        exact hdiff (hoid.symm)
  unfold dropOnSlot
  rw [hho, hids]
  simp

/-- C2 witness: in the state where `ORD-1` occupies `(2024-06-03, 09:00)`,
dragging `ORD-2` from the sidebar onto that slot leaves the state unchanged. -/
theorem C2_witness :
    dropOnSlot [sampleOrder1, sampleOrder2] [⟨"ORD-1", "2024-06-03", "09:00"⟩]
      sampleOrder2.id none "2024-06-03" "09:00"
      = [⟨"ORD-1", "2024-06-03", "09:00"⟩] :=
  C2_occupied_drop_rejected [sampleOrder1, sampleOrder2]
    [⟨"ORD-1", "2024-06-03", "09:00"⟩] sampleOrder2 none "2024-06-03" "09:00"
    ⟨"ORD-1", "2024-06-03", "09:00"⟩ (by decide) (by decide) (by decide) (by decide)

/-- C3: move semantics. If order `o` is scheduled at slot A (the well-formed
drag carries its entry `e`), and it is dropped on a different, empty slot
`(d, t)`, then afterwards no entry occupies A, exactly one entry references
`o.id`, and that entry is `⟨o.id, d, t⟩`. Moreover — unconditionally — every
drop and every sidebar drop preserves "at most one entry per orderId". -/
theorem C3_move_semantics
    (orders : List Order) (L : List ScheduledOrder) (o : Order) (e : ScheduledOrder)
    (d t : String)
    (hpu : pairUnique L) (hwf : dragWF orders L o (some e))
    (hne : ¬(e.date = d ∧ e.timeSlot = t))
    (hempty : L.find? (fun s => s.date == d && s.timeSlot == t) = none) :
    (∀ s ∈ dropOnSlot orders L o.id (some e) d t,
        ¬(s.date = e.date ∧ s.timeSlot = e.timeSlot)) ∧
    (dropOnSlot orders L o.id (some e) d t).countP (fun s => s.orderId == o.id) = 1 ∧
    (⟨o.id, d, t⟩ : ScheduledOrder) ∈ dropOnSlot orders L o.id (some e) d t ∧
    (∀ (orders₂ : List Order) (L₂ : List ScheduledOrder) (id₂ : String)
        (dso₂ : Option ScheduledOrder) (d₂ t₂ : String),
      orderIdUnique L₂ →
        orderIdUnique (dropOnSlot orders₂ L₂ id₂ dso₂ d₂ t₂) ∧
        orderIdUnique (handleSidebarDrop L₂ id₂ dso₂)) := by
  simp only [dragWF] at hwf
  obtain ⟨hfind, hres⟩ := hwf
  have hemem : e ∈ L := List.mem_of_find?_eq_some hfind
  have hoid : o.id = e.orderId := by
    have := List.find?_some hres
    simpa using this
  have hho : hasOrder orders L d t = false := by
    unfold hasOrder getScheduledOrder
    rw [hempty]
    rfl
  have hsame : (e.date == d && e.timeSlot == t) = false := by
    rw [Bool.and_eq_false_iff]
    by_contra hcon
    push_neg at hcon
    exact hne ⟨by simpa using hcon.1, by simpa using hcon.2⟩
  have hresult : dropOnSlot orders L o.id (some e) d t
      = L.filter (fun s => s.orderId != o.id) ++ [⟨o.id, d, t⟩] := by
    unfold dropOnSlot handleDrop
    rw [hho]
    simp [hsame]
  refine ⟨?_, ?_, ?_, ?_⟩
  · intro s hs
    rw [hresult, List.mem_append] at hs
    rcases hs with hs | hs
    · have hsmem : s ∈ L := (List.mem_filter.mp hs).1
      have hsne : (s.orderId != o.id) = true := (List.mem_filter.mp hs).2
      intro hpair
      have : s = e := pairUnique_eq_of_same_pair hpu hsmem hemem hpair.1 hpair.2
      subst this
      rw [← hoid] at hsne
      simp at hsne
    · have : s = ⟨o.id, d, t⟩ := List.mem_singleton.mp hs
      subst this
      intro hpair
      exact hne ⟨hpair.1.symm, hpair.2.symm⟩
  · rw [hresult, List.countP_append]
    have h0 : (L.filter (fun s => s.orderId != o.id)).countP
        (fun s => s.orderId == o.id) = 0 := by
      rw [List.countP_eq_zero]
      intro a ha
      have : (a.orderId != o.id) = true := (List.mem_filter.mp ha).2
      simpa using this
    rw [h0]
    simp
  · rw [hresult]
    exact List.mem_append_right _ (List.mem_singleton.mpr rfl)
  · intro orders₂ L₂ id₂ dso₂ d₂ t₂ h₂
    exact ⟨orderIdUnique_dropOnSlot orders₂ L₂ id₂ dso₂ d₂ t₂ h₂,
           orderIdUnique_handleSidebarDrop L₂ id₂ dso₂ h₂⟩

/-- C3 witness: `ORD-1`, scheduled at `(2024-06-03, 09:00)`, is moved to the
empty slot `(2024-06-04, 10:00)`. -/
theorem C3_witness :
    (∀ s ∈ dropOnSlot [sampleOrder1] [⟨"ORD-1", "2024-06-03", "09:00"⟩]
        sampleOrder1.id (some ⟨"ORD-1", "2024-06-03", "09:00"⟩) "2024-06-04" "10:00",
      ¬(s.date = (⟨"ORD-1", "2024-06-03", "09:00"⟩ : ScheduledOrder).date ∧
        s.timeSlot = (⟨"ORD-1", "2024-06-03", "09:00"⟩ : ScheduledOrder).timeSlot)) ∧
    (dropOnSlot [sampleOrder1] [⟨"ORD-1", "2024-06-03", "09:00"⟩]
        sampleOrder1.id (some ⟨"ORD-1", "2024-06-03", "09:00"⟩) "2024-06-04"
        "10:00").countP (fun s => s.orderId == sampleOrder1.id) = 1 ∧
    (⟨sampleOrder1.id, "2024-06-04", "10:00"⟩ : ScheduledOrder) ∈
      dropOnSlot [sampleOrder1] [⟨"ORD-1", "2024-06-03", "09:00"⟩]
        sampleOrder1.id (some ⟨"ORD-1", "2024-06-03", "09:00"⟩) "2024-06-04" "10:00" ∧
    (∀ (orders₂ : List Order) (L₂ : List ScheduledOrder) (id₂ : String)
        (dso₂ : Option ScheduledOrder) (d₂ t₂ : String),
      orderIdUnique L₂ →
        orderIdUnique (dropOnSlot orders₂ L₂ id₂ dso₂ d₂ t₂) ∧
        orderIdUnique (handleSidebarDrop L₂ id₂ dso₂)) :=
  C3_move_semantics [sampleOrder1] [⟨"ORD-1", "2024-06-03", "09:00"⟩] sampleOrder1
    ⟨"ORD-1", "2024-06-03", "09:00"⟩ "2024-06-04" "10:00"
    (by decide) (by decide) (by decide) (by decide)

/-- C4: a drop of a scheduled order onto its own current slot is a no-op:
the gate lets it through (`isDraggingSameOrder`) and `handleDrop` returns
early, leaving the ScheduledOrder set exactly unchanged. -/
theorem C4_same_slot_idempotent (orders : List Order) (L : List ScheduledOrder)
    (draggedId : String) (e : ScheduledOrder) (d t : String)
    (h1 : e.date = d) (h2 : e.timeSlot = t) :
    dropOnSlot orders L draggedId (some e) d t = L := by
  subst h1 h2
  unfold dropOnSlot handleDrop isDraggingSameOrder
  simp

/-- C4 witness: re-dropping the `ORD-1` entry on its own slot keeps the
one-entry state. -/
theorem C4_witness :
    dropOnSlot [sampleOrder1] [⟨"ORD-1", "2024-06-03", "09:00"⟩] "ORD-1"
      (some ⟨"ORD-1", "2024-06-03", "09:00"⟩) "2024-06-03" "09:00"
      = [⟨"ORD-1", "2024-06-03", "09:00"⟩] :=
  C4_same_slot_idempotent [sampleOrder1] [⟨"ORD-1", "2024-06-03", "09:00"⟩]
    "ORD-1" ⟨"ORD-1", "2024-06-03", "09:00"⟩ "2024-06-03" "09:00" rfl rfl

/-- C9: scheduling operations never touch the order records. A calendar drop
and a sidebar drop update only the `scheduledOrders` component of the state;
the `orders` list — hence every field of every order — is exactly preserved. -/
theorem C9_orders_frame (σ : EngineState) (draggedId : String)
    (dso : Option ScheduledOrder) (dateStr timeSlot : String) :
    (dropOp σ draggedId dso dateStr timeSlot).orders = σ.orders ∧
    (sidebarOp σ draggedId dso).orders = σ.orders :=
  ⟨rfl, rfl⟩

/-- The order form's state (`formData` in `src/types/order.ts` lines 686-696).
All fields are text inputs; `price` here is the numeric result of
`parseFloat(formData.price)`, with `none` standing for `NaN`. -/
structure OrderFormData where
  customer : String
  cargoDescription : String
  price : Option Int
  pickupTime : String
  pickupAddress : String
  deliverBeforeTime : String
  deliverBeforeAddress : String
  equipmentType : String
  employeeId : String

/-- The edit branch of `handleSubmit` from `src/types/order.ts` lines 757-779:
map over the orders, spreading the form values over the order whose id is the
one being edited. `price` is `parseFloat(formData.price) || 0` and
`employeeId` is `formData.employeeId || undefined`. -/
def handleSubmitEdit (orders : List Order) (editingOrderId : String)
    (fd : OrderFormData) : List Order :=
  orders.map fun o =>
    if o.id == editingOrderId then
      { o with
        customer := fd.customer
        cargoDescription := fd.cargoDescription
        price := fd.price.getD 0
        pickupTime := fd.pickupTime
        pickupAddress := fd.pickupAddress
        deliverBeforeTime := fd.deliverBeforeTime
        deliverBeforeAddress := fd.deliverBeforeAddress
        equipmentType := fd.equipmentType
        employeeId := if fd.employeeId == "" then none else some fd.employeeId }
    else o

/-- C10: submitting the edit form changes only the form-editable fields of the
order(s) whose id is the edited one: `id`, `status` and `driverId` are
preserved there, and every order with a different id is exactly unchanged.
Positions and length are preserved as well. -/
theorem C10_edit_frame (orders : List Order) (eid : String) (fd : OrderFormData) :
    (handleSubmitEdit orders eid fd).length = orders.length ∧
    (∀ (i : Nat) (h1 : i < orders.length)
        (h2 : i < (handleSubmitEdit orders eid fd).length),
      (orders[i].id ≠ eid → (handleSubmitEdit orders eid fd)[i] = orders[i]) ∧
      (orders[i].id = eid →
        (handleSubmitEdit orders eid fd)[i].id = orders[i].id ∧
        (handleSubmitEdit orders eid fd)[i].status = orders[i].status ∧
        (handleSubmitEdit orders eid fd)[i].driverId = orders[i].driverId ∧
        (handleSubmitEdit orders eid fd)[i].customer = fd.customer ∧
        (handleSubmitEdit orders eid fd)[i].cargoDescription = fd.cargoDescription ∧
        (handleSubmitEdit orders eid fd)[i].price = fd.price.getD 0 ∧
        (handleSubmitEdit orders eid fd)[i].pickupTime = fd.pickupTime ∧
        (handleSubmitEdit orders eid fd)[i].pickupAddress = fd.pickupAddress ∧
        (handleSubmitEdit orders eid fd)[i].deliverBeforeTime = fd.deliverBeforeTime ∧
        (handleSubmitEdit orders eid fd)[i].deliverBeforeAddress
          = fd.deliverBeforeAddress ∧
        (handleSubmitEdit orders eid fd)[i].equipmentType = fd.equipmentType ∧
        (handleSubmitEdit orders eid fd)[i].employeeId
          = (if fd.employeeId == "" then none else some fd.employeeId))) := by
  constructor
  · simp [handleSubmitEdit]
  · intro i h1 h2
    constructor
    · intro hne
      simp only [handleSubmitEdit, List.getElem_map]
      rw [if_neg (by simpa using hne)]
    · intro heq
      simp only [handleSubmitEdit, List.getElem_map]
      rw [if_pos (by simpa using heq)]
      refine ⟨rfl, rfl, rfl, rfl, rfl, rfl, rfl, rfl, rfl, rfl, rfl, rfl⟩

/-- Sample form data used to witness C10. -/
def sampleFormData : OrderFormData :=
  ⟨"Ny Kunde", "boxes", some 250, "2024-06-07T08:00", "Stavanger",
   "2024-06-08T18:00", "Oslo", "Truck - 20ft", "EMP-9"⟩

/-- C10 witness: editing `ORD-1` in `[sampleOrder1, sampleOrder2]` keeps
`ORD-2` untouched at its position and rewrites only the form fields of the
entry at position 0, preserving its id, status and driver. -/
theorem C10_witness :
    (handleSubmitEdit [sampleOrder1, sampleOrder2] "ORD-1" sampleFormData).length
      = ([sampleOrder1, sampleOrder2] : List Order).length ∧
    (handleSubmitEdit [sampleOrder1, sampleOrder2] "ORD-1" sampleFormData).get
      ⟨1, by decide⟩ = sampleOrder2 ∧
    ((handleSubmitEdit [sampleOrder1, sampleOrder2] "ORD-1" sampleFormData).get
      ⟨0, by decide⟩).id = sampleOrder1.id ∧
    ((handleSubmitEdit [sampleOrder1, sampleOrder2] "ORD-1" sampleFormData).get
      ⟨0, by decide⟩).customer = sampleFormData.customer := by
  have h := C10_edit_frame [sampleOrder1, sampleOrder2] "ORD-1" sampleFormData
  refine ⟨h.1, ?_, ?_, ?_⟩
  · exact (h.2 1 (by decide) (by decide)).1 (by decide)
  · exact ((h.2 0 (by decide) (by decide)).2 (by decide)).1
  · exact (((h.2 0 (by decide) (by decide)).2 (by decide)).2.2.2).1

/-- The `Employee` interface from `src/types/employee.ts`. -/
structure Employee where
  id : String
  name : String
  email : Option String
  phone : Option String
  role : Option String
  createdAt : String
deriving DecidableEq

/-- The four order tabs (`activeTab` state, `src/types/order.ts` line 447). -/
inductive Tab where
  | all
  | unassigned
  | assigned
  | finished
deriving DecidableEq

/-- Which time field the date-range filter compares (`dateRangeType` state,
line 453). -/
inductive DateRangeKind where
  | pickup
  | delivery
deriving DecidableEq

/-- Sort direction (`sortDirection` state, line 450). -/
inductive SortDir where
  | asc
  | desc
deriving DecidableEq

/-- The external `Date` collaborator: `parse` models `new Date(s).getTime()`
on the repository's date strings, and `endOfDay` models
`setHours(23, 59, 59, 999)` applied to a parsed date. The verified claims
never exercise these (their filter branches are disabled), so they stay
abstract parameters of the pipeline. -/
structure DateModel where
  parse : String → Int
  endOfDay : Int → Int

/-- The tab filter from `src/types/order.ts` lines 513-529: `all` passes
everything, `unassigned` requires `!order.driverId` (JavaScript truthiness:
`undefined` or `""`), `assigned` requires `!!order.driverId` and
`status !== 'finished'`, `finished` requires `status === 'finished'`. -/
def matchesTab (tab : Tab) (o : Order) : Bool :=
  match tab with
  | .all => true
  | .unassigned => !(truthy o.driverId)
  | .assigned => truthy o.driverId && !(o.status == some .finished)
  | .finished => o.status == some .finished

/-- Boolean list-prefix test (used to model `String.includes`). -/
def isPrefB : List Char → List Char → Bool
  | [], _ => true
  | _ :: _, [] => false
  | a :: as, b :: bs => a == b && isPrefB as bs

/-- Boolean list-infix test (used to model `String.includes`). -/
def isInfB (q : List Char) : List Char → Bool
  | [] => isPrefB q []
  | c :: ls => isPrefB q (c :: ls) || isInfB q ls

/-- `haystack.toLowerCase().includes(query)` with an already-lowercased
query. -/
def strIncludes (haystack query : String) : Bool :=
  isInfB query.data haystack.toLower.data

/-- The search filter from `src/types/order.ts` lines 535-545: case-insensitive
substring match against order id, customer, pickup address, delivery address,
or the assigned driver's name. -/
def matchesSearch (drivers : List Employee) (searchQuery : String) (o : Order) : Bool :=
  let query := searchQuery.toLower
  let assignedDriver := drivers.find? (fun dr => some dr.id == o.driverId)
  strIncludes o.id query ||
  strIncludes o.customer query ||
  strIncludes o.pickupAddress query ||
  strIncludes o.deliverBeforeAddress query ||
  (match assignedDriver with
   | some dr => strIncludes dr.name query
   | none => false)

/-- The date-range filter from `src/types/order.ts` lines 548-560, on the
branch where at least one bound is a non-empty string. -/
def inDateRange (dm : DateModel) (kind : DateRangeKind)
    (startStr endStr : String) (o : Order) : Bool :=
  let dateField := match kind with
    | .pickup => o.pickupTime
    | .delivery => o.deliverBeforeTime
  let orderDate := dm.parse dateField
  (startStr == "" || !(decide (orderDate < dm.parse startStr))) &&
  (endStr == "" || !(decide (orderDate > dm.endOfDay (dm.parse endStr))))

/-- The status string used by the sort comparator: `a.status || 'active'`. -/
def statusText (o : Order) : String :=
  match o.status with
  | some .finished => "finished"
  | _ => "active"

/-- Signed comparator result from a strict-less and strict-greater test,
honouring the sort direction (`src/types/order.ts` lines 595-597). -/
def cmpSigned (dir : SortDir) (lt gt : Bool) : Int :=
  if lt then (match dir with | .asc => -1 | .desc => 1)
  else if gt then (match dir with | .asc => 1 | .desc => -1)
  else 0

/-- The sort comparator from `src/types/order.ts` lines 564-598. A `none`
field — `sortField` is `string | null` — and any unsupported field name
compare everything equal (`return 0`). -/
def cmpOrders (dm : DateModel) (sortField : Option String) (dir : SortDir)
    (a b : Order) : Int :=
  match sortField with
  | none => 0
  | some field =>
    if field == "customer" then
      cmpSigned dir (decide (a.customer.toLower < b.customer.toLower))
        (decide (b.customer.toLower < a.customer.toLower))
    else if field == "price" then
      cmpSigned dir (decide (a.price < b.price)) (decide (b.price < a.price))
    else if field == "pickupTime" then
      cmpSigned dir (decide (dm.parse a.pickupTime < dm.parse b.pickupTime))
        (decide (dm.parse b.pickupTime < dm.parse a.pickupTime))
    else if field == "deliverBeforeTime" then
      cmpSigned dir (decide (dm.parse a.deliverBeforeTime < dm.parse b.deliverBeforeTime))
        (decide (dm.parse b.deliverBeforeTime < dm.parse a.deliverBeforeTime))
    else if field == "status" then
      cmpSigned dir (decide (statusText a < statusText b))
        (decide (statusText b < statusText a))
    else 0

/-- Stable insertion of one element: `x` goes in front of the first element it
compares `≤` to, so elements comparing equal keep their original order. -/
def insOrd (le : Order → Order → Bool) (x : Order) : List Order → List Order
  | [] => [x]
  | y :: ys => if le x y then x :: y :: ys else y :: insOrd le x ys

/-- A stable sort, modelling `Array.prototype.sort` (which ECMAScript requires
to be stable) with the given boolean `≤` relation. -/
def sortStable (le : Order → Order → Bool) : List Order → List Order
  | [] => []
  | x :: xs => insOrd le x (sortStable le xs)

/-- All filter and sort criteria of the `OrderManagement` page, with the
types of the corresponding `useState` hooks (lines 445-453). -/
structure FilterParams where
  activeTab : Tab
  selectedDriver : Option String
  searchQuery : String
  dateRangeStart : String
  dateRangeEnd : String
  dateRangeType : DateRangeKind
  sortField : Option String
  sortDirection : SortDir

/-- The initial values of all the filter/sort `useState` hooks: tab `all`,
no selected driver, empty query, empty date bounds, pickup range type,
`null` sort field, ascending direction. -/
def defaultFilters : FilterParams :=
  ⟨.all, none, "", "", "", .pickup, none, .asc⟩

/-- The `filteredOrders` pipeline from `src/types/order.ts` lines 511-598:
a single filter pass (tab, then selected driver, then search, then date
range — each an early `return false`) followed by the comparator sort. -/
def filteredOrders (dm : DateModel) (drivers : List Employee) (p : FilterParams)
    (orders : List Order) : List Order :=
  sortStable (fun a b => decide (cmpOrders dm p.sortField p.sortDirection a b ≤ 0))
    (orders.filter fun o =>
      matchesTab p.activeTab o &&
      (!(truthy p.selectedDriver) || o.driverId == p.selectedDriver) &&
      (p.searchQuery == "" || matchesSearch drivers p.searchQuery o) &&
      ((p.dateRangeStart == "" && p.dateRangeEnd == "") ||
        inDateRange dm p.dateRangeType p.dateRangeStart p.dateRangeEnd o))

/-- Sorting with a relation that holds everywhere is the identity: each
element is inserted in front of the already-sorted tail. -/
theorem sortStable_of_total_tie (le : Order → Order → Bool)
    (htot : ∀ a b, le a b = true) : ∀ l : List Order, sortStable le l = l := by
  intro l
  induction l with
  | nil => rfl
  | cons x xs ih =>
      unfold sortStable
      rw [ih]
      cases xs with
      | nil => rfl
      | cons y ys =>
          unfold insOrd
          rw [htot x y]
          simp

/-- C7: the derive-view pipeline at all-default criteria (tab `all`, no
driver, empty query, no date bounds, `null` sort field) returns the order
collection unchanged: nothing is dropped, duplicated or reordered. -/
theorem C7_default_view_identity (dm : DateModel) (drivers : List Employee)
    (orders : List Order) :
    filteredOrders dm drivers defaultFilters orders = orders := by
  have hfilter : ∀ (p : Order → Bool), (∀ a, p a = true) →
      ∀ l : List Order, List.filter p l = l := by
    intro p hp l
    rw [List.filter_eq_self]
    intro a _
    exact hp a
  have h1 : List.filter (fun o : Order =>
      matchesTab defaultFilters.activeTab o &&
      (!(truthy defaultFilters.selectedDriver) ||
        o.driverId == defaultFilters.selectedDriver) &&
      (defaultFilters.searchQuery == "" ||
        matchesSearch drivers defaultFilters.searchQuery o) &&
      ((defaultFilters.dateRangeStart == "" && defaultFilters.dateRangeEnd == "") ||
        inDateRange dm defaultFilters.dateRangeType defaultFilters.dateRangeStart
          defaultFilters.dateRangeEnd o)) orders = orders :=
    hfilter _ (fun a => rfl) orders
  unfold filteredOrders
  rw [h1]
  exact sortStable_of_total_tie _ (fun a b => rfl) orders

/-- An order whose `driverId` is present but is the empty string. Such a
record is representable (`driverId?: string`) and reachable through JSON
import, which replaces the collection with any parsed array. -/
def blankDriverOrder : Order :=
  ⟨"ORD-3", "Ceres", "cars", 300, "2024-06-03T08:00", "Oslo", "2024-06-09T18:00",
   "Narvik", "Flatbed Truck", some "", none, some .active⟩

/-- C6 counterexample: the tab filter does not pass an order "exactly when its
driverId is absent" — `unassigned` uses JavaScript truthiness (`!order.driverId`),
so an order whose `driverId` is present but equal to `""` passes the
`unassigned` tab (and fails the `assigned` tab despite a present `driverId`
and a non-finished status). -/
theorem C6_blank_driver_cex :
    matchesTab .unassigned blankDriverOrder = true ∧
    blankDriverOrder.driverId ≠ none ∧
    matchesTab .assigned blankDriverOrder = false ∧
    blankDriverOrder.status ≠ some .finished := by
  decide

/-- The scenario's second order: finished, assigned to `EMP-1`. -/
def scenarioOrder2 : Order :=
  ⟨"ORD-2", "Birk", "pallets", 200, "2024-06-02T08:00", "Oslo", "2024-06-06T18:00",
   "Trondheim", "Van - Small", some "EMP-1", none, some .finished⟩

/-- C6 amended: the tab filter passes an order exactly when — `all`: always;
`unassigned`: `driverId` is absent or the empty string; `assigned`:
`driverId` is present and non-empty and status is not `finished`;
`finished`: status is `finished`. The concrete scenario holds as stated:
with orders `ORD-1` (active, no driver) and `ORD-2` (finished, driver
`EMP-1`), the `unassigned` tab yields exactly `[ORD-1]`. -/
theorem C6_tab_filter_amended :
    (∀ o : Order, matchesTab .all o = true) ∧
    (∀ o : Order, matchesTab .unassigned o = true ↔
      (o.driverId = none ∨ o.driverId = some "")) ∧
    (∀ o : Order, matchesTab .assigned o = true ↔
      ((∃ s, o.driverId = some s ∧ s ≠ "") ∧ o.status ≠ some .finished)) ∧
    (∀ o : Order, matchesTab .finished o = true ↔ o.status = some .finished) ∧
    filteredOrders ⟨fun _ => 0, fun x => x⟩ []
      ⟨.unassigned, none, "", "", "", .pickup, none, .asc⟩
      [sampleOrder1, scenarioOrder2] = [sampleOrder1] := by
  refine ⟨fun o => rfl, ?_, ?_, ?_, ?_⟩
  · intro o
    cases h : o.driverId with
    | none => simp [matchesTab, truthy, h]
    | some s => simp [matchesTab, truthy, h]
  · intro o
    cases h : o.driverId with
    | none => simp [matchesTab, truthy, h]
    | some s =>
        cases hs : o.status with
        | none => simp [matchesTab, truthy, h, hs]
        | some st => cases st <;> simp [matchesTab, truthy, h, hs]
  · intro o
    cases hs : o.status with
    | none => simp [matchesTab, hs]
    | some st => cases st <;> simp [matchesTab, hs]
  · rfl

/-! ### JSON values, rendering and parsing

`exportAsJSON` (`src/utils/storage.ts` lines 32-43) serializes with
`JSON.stringify(data, null, 2)` — pretty-printed with two-space indentation —
and `importFromJSON` (lines 46-60) deserializes with `JSON.parse`. Both are
modelled below over a JSON value type whose strings are character lists and
whose numbers are integers (fractional doubles are outside this embedding;
the repository's own records carry `price` as the only number). `undefined`
object properties are not values: `JSON.stringify` drops such keys, which the
order encoder below reflects by omitting absent optional fields. -/

/-- A JSON value. Strings are kept as raw character lists (unescaped). -/
inductive Jv where
  | nullv
  | boolv (b : Bool)
  | numv (n : Int)
  | strv (s : List Char)
  | arrv (items : List Jv)
  | objv (fields : List (List Char × Jv))

/-- JSON whitespace. -/
def isWsC (c : Char) : Bool :=
  c == ' ' || c == '\n' || c == '\t' || c == '\r'

/-- Decimal digit character. -/
def isDigC (c : Char) : Bool :=
  '0' ≤ c && c ≤ '9'

/-- The character of a decimal digit. -/
def digC (d : Nat) : Char := Char.ofNat (48 + d)

/-- Lowercase hexadecimal digit character, as emitted by `JSON.stringify`
in `\u00xx` escapes. -/
def hexC (d : Nat) : Char :=
  if d < 10 then Char.ofNat (48 + d) else Char.ofNat (87 + d)

/-- Decimal digit characters of a natural number, most significant first. -/
def natChars (n : Nat) : List Char :=
  if n < 10 then [digC n] else natChars (n / 10) ++ [digC (n % 10)]
termination_by n
decreasing_by exact Nat.div_lt_self (by omega) (by omega)

/-- Decimal characters of an integer: optional minus sign, then digits. -/
def intChars (i : Int) : List Char :=
  if i < 0 then '-' :: natChars i.natAbs else natChars i.natAbs

/-- One string character, JSON-escaped the way `JSON.stringify` escapes it:
quote and backslash get two-character escapes, the named control characters
get their short escapes, other control characters get `\u00xx`, and
everything else is emitted raw. -/
def escC (c : Char) : List Char :=
  if c = '"' then ['\\', '"']
  else if c = '\\' then ['\\', '\\']
  else if c = '\n' then ['\\', 'n']
  else if c = '\r' then ['\\', 'r']
  else if c = '\t' then ['\\', 't']
  else if c = '\x08' then ['\\', 'b']
  else if c = '\x0c' then ['\\', 'f']
  else if c.toNat < 32 then
    ['\\', 'u', '0', '0', hexC (c.toNat / 16), hexC (c.toNat % 16)]
  else [c]

/-- JSON escaping of a whole string. -/
def escStr : List Char → List Char
  | [] => []
  | c :: cs => escC c ++ escStr cs

/-- Indentation: `n` spaces. -/
def pad (n : Nat) : List Char := List.replicate n ' '

mutual

/-- Pretty rendering at nesting level `ind`, as produced by
`JSON.stringify(value, null, 2)`: scalars are compact, non-empty arrays and
objects open with a newline, indent their entries by two more spaces each
level, separate them with `,` + newline, and close on a fresh line at the
enclosing indentation. -/
def renderJ (ind : Nat) : Jv → List Char
  | .nullv => ['n', 'u', 'l', 'l']
  | .boolv true => ['t', 'r', 'u', 'e']
  | .boolv false => ['f', 'a', 'l', 's', 'e']
  | .numv n => intChars n
  | .strv s => '"' :: (escStr s ++ ['"'])
  | .arrv [] => ['[', ']']
  | .arrv (x :: xs) =>
      '[' :: '\n' :: (pad (2 * (ind + 1)) ++ (renderJ (ind + 1) x ++
        (arrTail (ind + 1) xs ++ '\n' :: (pad (2 * ind) ++ [']']))))
  | .objv [] => ['{', '}']
  | .objv (g :: gs) =>
      '{' :: '\n' :: (pad (2 * (ind + 1)) ++ (fieldChars (ind + 1) g ++
        (objTail (ind + 1) gs ++ '\n' :: (pad (2 * ind) ++ ['}']))))

/-- Second and later array items: `,` + newline + indentation + item. -/
def arrTail (ind : Nat) : List Jv → List Char
  | [] => []
  | x :: xs => ',' :: '\n' :: (pad (2 * ind) ++ (renderJ ind x ++ arrTail ind xs))

/-- One object member: quoted key, `: `, value. -/
def fieldChars (ind : Nat) (g : List Char × Jv) : List Char :=
  '"' :: (escStr g.1 ++ ('"' :: ':' :: ' ' :: renderJ ind g.2))

/-- Second and later object members. -/
def objTail (ind : Nat) : List (List Char × Jv) → List Char
  | [] => []
  | g :: gs => ',' :: '\n' :: (pad (2 * ind) ++ (fieldChars ind g ++ objTail ind gs))

end

/-- Drop leading JSON whitespace. -/
def skipWsC : List Char → List Char
  | [] => []
  | c :: cs => if isWsC c then skipWsC cs else c :: cs

/-- Split a leading run of decimal digits from the input. -/
def takeDigs : List Char → List Char × List Char
  | [] => ([], [])
  | c :: cs =>
      if isDigC c then
        let r := takeDigs cs
        (c :: r.1, r.2)
      else ([], c :: cs)

/-- Numeric value of a digit run. -/
def digsVal (ds : List Char) : Nat :=
  ds.foldl (fun a c => a * 10 + (c.toNat - 48)) 0

/-- Parse an integer literal: optional minus sign, one or more digits. -/
def parseIntCs : List Char → Option (Int × List Char)
  | [] => none
  | c :: cs =>
      if c = '-' then
        let p := takeDigs cs
        if p.1.isEmpty then none else some (-(digsVal p.1 : Int), p.2)
      else
        let p := takeDigs (c :: cs)
        if p.1.isEmpty then none else some ((digsVal p.1 : Int), p.2)

/-- The character denoted by a two-character escape. -/
def unescC (c : Char) : Option Char :=
  if c = '"' then some '"'
  else if c = '\\' then some '\\'
  else if c = '/' then some '/'
  else if c = 'n' then some '\n'
  else if c = 'r' then some '\r'
  else if c = 't' then some '\t'
  else if c = 'b' then some '\x08'
  else if c = 'f' then some '\x0c'
  else none

/-- Value of one hexadecimal digit character. -/
def hexValC (c : Char) : Option Nat :=
  if '0' ≤ c ∧ c ≤ '9' then some (c.toNat - 48)
  else if 'a' ≤ c ∧ c ≤ 'f' then some (c.toNat - 87)
  else if 'A' ≤ c ∧ c ≤ 'F' then some (c.toNat - 55)
  else none

/-- Parse a string body after the opening quote, undoing escapes, up to the
closing quote; raw control characters are rejected, as `JSON.parse` does. -/
def strBody : List Char → Option (List Char × List Char)
  | [] => none
  | c :: cs =>
      if c = '"' then some ([], cs)
      else if c = '\\' then
        match cs with
        | [] => none
        | e :: cs2 =>
            if e = 'u' then
              match cs2 with
              | h1 :: h2 :: h3 :: h4 :: cs3 =>
                  match hexValC h1, hexValC h2, hexValC h3, hexValC h4 with
                  | some v1, some v2, some v3, some v4 =>
                      match strBody cs3 with
                      | some (s, r) =>
                          some (Char.ofNat (((v1 * 16 + v2) * 16 + v3) * 16 + v4) :: s, r)
                      | none => none
                  | _, _, _, _ => none
              | _ => none
            else
              match unescC e with
              | some u =>
                  match strBody cs2 with
                  | some (s, r) => some (u :: s, r)
                  | none => none
              | none => none
      else if c.toNat < 32 then none
      else
        match strBody cs with
        | some (s, r) => some (c :: s, r)
        | none => none

mutual

/-- Parse one JSON value; `fuel` bounds the recursion (the top-level wrapper
passes the input length plus one, which the round-trip theorems show is
enough). Rejecting on zero fuel keeps the parser total. -/
def parseV : Nat → List Char → Option (Jv × List Char)
  | 0, _ => none
  | fuel + 1, l =>
      match skipWsC l with
      | [] => none
      | c :: cs =>
          if c = 'n' then
            match cs with
            | c1 :: c2 :: c3 :: r =>
                if c1 = 'u' ∧ c2 = 'l' ∧ c3 = 'l' then some (.nullv, r) else none
            | _ => none
          else if c = 't' then
            match cs with
            | c1 :: c2 :: c3 :: r =>
                if c1 = 'r' ∧ c2 = 'u' ∧ c3 = 'e' then some (.boolv true, r) else none
            | _ => none
          else if c = 'f' then
            match cs with
            | c1 :: c2 :: c3 :: c4 :: r =>
                if c1 = 'a' ∧ c2 = 'l' ∧ c3 = 's' ∧ c4 = 'e' then
                  some (.boolv false, r)
                else none
            | _ => none
          else if c = '"' then
            match strBody cs with
            | some (s, r) => some (.strv s, r)
            | none => none
          else if c = '[' then
            match skipWsC cs with
            | [] => none
            | c2 :: cs2 =>
                if c2 = ']' then some (.arrv [], cs2)
                else
                  match parseIts fuel (c2 :: cs2) with
                  | some (vs, r) => some (.arrv vs, r)
                  | none => none
          else if c = '{' then
            match skipWsC cs with
            | [] => none
            | c2 :: cs2 =>
                if c2 = '}' then some (.objv [], cs2)
                else
                  match parseFls fuel (c2 :: cs2) with
                  | some (gs, r) => some (.objv gs, r)
                  | none => none
          else if c = '-' || isDigC c then
            match parseIntCs (c :: cs) with
            | some (n, r) => some (.numv n, r)
            | none => none
          else none

/-- Parse one or more comma-separated array items up to the closing `]`. -/
def parseIts : Nat → List Char → Option (List Jv × List Char)
  | 0, _ => none
  | fuel + 1, l =>
      match parseV fuel l with
      | none => none
      | some (v, r) =>
          match skipWsC r with
          | [] => none
          | c2 :: r2 =>
              if c2 = ',' then
                match parseIts fuel r2 with
                | some (vs, r3) => some (v :: vs, r3)
                | none => none
              else if c2 = ']' then some ([v], r2)
              else none

/-- Parse one or more comma-separated object members up to the closing `}`. -/
def parseFls : Nat → List Char → Option (List (List Char × Jv) × List Char)
  | 0, _ => none
  | fuel + 1, l =>
      match skipWsC l with
      | [] => none
      | c :: cs =>
          if c = '"' then
            match strBody cs with
            | none => none
            | some (k, r1) =>
                match skipWsC r1 with
                | [] => none
                | c2 :: r2 =>
                    if c2 = ':' then
                      match parseV fuel r2 with
                      | none => none
                      | some (v, r3) =>
                          match skipWsC r3 with
                          | [] => none
                          | c3 :: r4 =>
                              if c3 = ',' then
                                match parseFls fuel r4 with
                                | some (gs, r5) => some ((k, v) :: gs, r5)
                                | none => none
                              else if c3 = '}' then some ([(k, v)], r4)
                              else none
                    else none
          else none

end

/-- `JSON.parse` on a whole document: one value, then only trailing
whitespace. -/
def parseDoc (l : List Char) : Option Jv :=
  match parseV (l.length + 1) l with
  | some (v, r) => if (skipWsC r).isEmpty then some v else none
  | none => none

/-- The continuation after a rendered number may not begin with a digit
(otherwise the digit run would extend into it). -/
def noDigHead : List Char → Bool
  | [] => true
  | c :: _ => !(isDigC c)

/-- Digit characters carry their value and are digits. -/
theorem digC_spec : ∀ d : Nat, d < 10 →
    (digC d).toNat - 48 = d ∧ isDigC (digC d) = true := by
  decide

/-- One unfolding of `natChars`, in last-digit form. -/
theorem natChars_eq (n : Nat) :
    natChars n = (if n < 10 then [] else natChars (n / 10)) ++ [digC (n % 10)] := by
  rw [natChars]
  by_cases h : n < 10
  · simp [h, Nat.mod_eq_of_lt h]
  · simp [h]

/-- Every character of a rendered natural number is a digit. -/
theorem natChars_digits (n : Nat) : ∀ c ∈ natChars n, isDigC c = true := by
  induction n using Nat.strongRecOn with
  | _ n ih =>
      intro c hc
      rw [natChars_eq] at hc
      rcases List.mem_append.mp hc with h | h
      · by_cases h10 : n < 10
        · simp [h10] at h
        · exact ih (n / 10) (Nat.div_lt_self (by omega) (by omega)) c (by simpa [h10] using h)
      · rw [List.mem_singleton] at h
        subst h
        exact (digC_spec _ (Nat.mod_lt _ (by omega))).2

/-- A rendered natural number starts with a digit character. -/
theorem natChars_head (n : Nat) :
    ∃ c t, natChars n = c :: t ∧ isDigC c = true := by
  cases h : natChars n with
  | nil =>
      rw [natChars_eq] at h
      simp at h
  | cons c t =>
      exact ⟨c, t, rfl, natChars_digits n c (h ▸ List.mem_cons_self c t)⟩

/-- Folding the digit-accumulation step over a rendered natural number. -/
theorem foldl_natChars (n : Nat) : ∀ a : Nat,
    (natChars n).foldl (fun a c => a * 10 + (c.toNat - 48)) a
      = a * 10 ^ (natChars n).length + n := by
  induction n using Nat.strongRecOn with
  | _ n ih =>
      intro a
      rw [natChars_eq]
      by_cases h : n < 10
      · simp only [if_pos h, List.nil_append, List.foldl_cons, List.foldl_nil,
          List.length_singleton]
        rw [(digC_spec _ (Nat.mod_lt _ (by omega))).1]
        rw [Nat.mod_eq_of_lt h]
        omega
      · simp only [if_neg h, List.foldl_append, List.foldl_cons, List.foldl_nil,
          List.length_append, List.length_singleton]
        rw [ih (n / 10) (Nat.div_lt_self (by omega) (by omega)) a]
        rw [(digC_spec _ (Nat.mod_lt _ (by omega))).1]
        rw [pow_succ]
        have h1 : (a * 10 ^ (natChars (n / 10)).length + n / 10) * 10 + (n % 10)
            = a * (10 ^ (natChars (n / 10)).length * 10) + (n / 10 * 10 + n % 10) := by
          ring
        have h2 : n / 10 * 10 + n % 10 = n := by
          rw [Nat.mul_comm]
          exact Nat.div_add_mod n 10
        rw [h1, h2]

/-- `digsVal` inverts `natChars`. -/
theorem digsVal_natChars (n : Nat) : digsVal (natChars n) = n := by
  rw [digsVal, foldl_natChars]
  omega

/-- `takeDigs` does not start on a non-digit head. -/
theorem takeDigs_stop {l : List Char} (h : noDigHead l = true) :
    takeDigs l = ([], l) := by
  cases l with
  | nil => rfl
  | cons c t =>
      simp only [noDigHead, Bool.not_eq_eq_eq_not, Bool.not_true] at h
      simp [takeDigs, h]

/-- `takeDigs` consumes exactly a leading run of digits. -/
theorem takeDigs_run {ds : List Char} (hds : ∀ c ∈ ds, isDigC c = true)
    {rest : List Char} (hrest : noDigHead rest = true) :
    takeDigs (ds ++ rest) = (ds, rest) := by
  induction ds with
  | nil => simpa using takeDigs_stop hrest
  | cons c t ih =>
      have hc : isDigC c = true := hds c (List.mem_cons_self c t)
      have ht := ih (fun x hx => hds x (List.mem_cons_of_mem c hx))
      simp [takeDigs, hc, ht]

/-- A digit is not a minus sign. -/
theorem digit_ne_minus {c : Char} (h : isDigC c = true) : c ≠ '-' := by
  intro hc
  subst hc
  exact absurd h (by decide)

/-- `parseIntCs` inverts `intChars` whenever the continuation does not start
with a digit. -/
theorem parseIntCs_intChars (i : Int) {rest : List Char}
    (hrest : noDigHead rest = true) :
    parseIntCs (intChars i ++ rest) = some (i, rest) := by
  obtain ⟨c, t, hct, hc⟩ := natChars_head i.natAbs
  have hdigs : ∀ x ∈ natChars i.natAbs, isDigC x = true := natChars_digits _
  have hrun := takeDigs_run hdigs hrest
  by_cases hi : i < 0
  · have harg : intChars i ++ rest = '-' :: (natChars i.natAbs ++ rest) := by
      simp [intChars, hi]
    rw [harg]
    simp only [parseIntCs, if_pos rfl, hrun]
    have hne : (natChars i.natAbs).isEmpty = false := by
      rw [hct]
      rfl
    rw [hne]
    simp only [Bool.false_eq_true, if_false]
    rw [digsVal_natChars]
    rw [if_pos trivial]
    have hval : -((i.natAbs : Nat) : Int) = i := by omega
    rw [hval]
  · have harg : intChars i ++ rest = c :: (t ++ rest) := by
      simp [intChars, hi, hct]
    rw [harg]
    simp only [parseIntCs, if_neg (digit_ne_minus hc)]
    have hrun' : takeDigs (c :: (t ++ rest)) = (c :: t, rest) := by
      rw [← List.cons_append, ← hct]
      exact hrun
    rw [hrun']
    simp only [List.isEmpty_cons, Bool.false_eq_true, if_false]
    have : digsVal (c :: t) = i.natAbs := by
      rw [← hct, digsVal_natChars]
    rw [this]
    have hval : ((i.natAbs : Nat) : Int) = i := by omega
    rw [hval]

/-- Hexadecimal digit characters carry their value. -/
theorem hexValC_hexC : ∀ d : Nat, d < 16 → hexValC (hexC d) = some d := by
  decide

/-- Parsing one escaped character prepends exactly that character. -/
theorem strBody_escC (c : Char) (l : List Char) :
    strBody (escC c ++ l)
      = match strBody l with
        | some (s, r) => some (c :: s, r)
        | none => none := by
  simp only [escC]
  split_ifs with h1 h2 h3 h4 h5 h6 h7 h8
  · subst h1
    rw [strBody.eq_def]
    simp [unescC]
  · subst h2
    rw [strBody.eq_def]
    simp [unescC]
  · subst h3
    rw [strBody.eq_def]
    simp [unescC]
  · subst h4
    rw [strBody.eq_def]
    simp [unescC]
  · subst h5
    rw [strBody.eq_def]
    simp [unescC]
  · subst h6
    rw [strBody.eq_def]
    simp [unescC]
  · subst h7
    rw [strBody.eq_def]
    simp [unescC]
  · show strBody ('\\' :: 'u' :: '0' :: '0' :: hexC (c.toNat / 16) ::
        hexC (c.toNat % 16) :: l) = _
    rw [strBody.eq_def]
    have hhi : c.toNat / 16 < 16 := by omega
    have hlo : c.toNat % 16 < 16 := by omega
    have h0 : hexValC '0' = some 0 := by decide
    simp [h0, hexValC_hexC _ hhi, hexValC_hexC _ hlo]
    have hch : Char.ofNat (c.toNat / 16 * 16 + c.toNat % 16) = c := by
      have harith : c.toNat / 16 * 16 + c.toNat % 16 = c.toNat := by omega
      rw [harith, Char.ofNat_toNat]
    simp [hch]
  · show strBody (c :: l) = _
    rw [strBody.eq_def]
    simp [h1, h2, h8]

/-- Parsing a fully escaped string body recovers the original characters and
stops at the closing quote. -/
theorem strBody_escStr (s : List Char) : ∀ rest : List Char,
    strBody (escStr s ++ '"' :: rest) = some (s, rest) := by
  induction s with
  | nil =>
      intro rest
      show strBody ('"' :: rest) = some ([], rest)
      rw [strBody.eq_def]
      simp
  | cons c t ih =>
      intro rest
      rw [escStr, List.append_assoc, strBody_escC, ih]

/-- All-whitespace character lists. -/
def allWsC (l : List Char) : Bool := l.all isWsC

/-- `skipWsC` does nothing on a non-whitespace head. -/
theorem skipWsC_nws {c : Char} (h : isWsC c = false) (l : List Char) :
    skipWsC (c :: l) = c :: l := by
  simp [skipWsC, h]

/-- `skipWsC` swallows an all-whitespace prefix. -/
theorem skipWsC_ws_append {w : List Char} (hw : allWsC w = true) (l : List Char) :
    skipWsC (w ++ l) = skipWsC l := by
  induction w with
  | nil => rfl
  | cons c t ih =>
      simp only [allWsC, List.all_cons, Bool.and_eq_true] at hw
      simp only [List.cons_append, skipWsC, if_pos hw.1]
      exact ih hw.2

/-- Indentation is whitespace. -/
theorem allWsC_pad (n : Nat) : allWsC (pad n) = true := by
  simp only [allWsC, pad, List.all_eq_true]
  intro c hc
  rw [List.eq_of_mem_replicate hc]
  rfl

/-- A digit character is not whitespace and is none of the JSON structural
characters. -/
theorem digit_shape {c : Char} (h : isDigC c = true) :
    isWsC c = false ∧ c ≠ 'n' ∧ c ≠ 't' ∧ c ≠ 'f' ∧ c ≠ '"' ∧ c ≠ '[' ∧
    c ≠ '{' ∧ c ≠ ']' ∧ c ≠ '}' ∧ c ≠ ',' := by
  refine ⟨?_, ?_, ?_, ?_, ?_, ?_, ?_, ?_, ?_, ?_⟩
  · by_contra hws
    rw [Bool.not_eq_false] at hws
    have : c = ' ' ∨ c = '\n' ∨ c = '\t' ∨ c = '\r' := by
      simpa [isWsC, or_assoc] using hws
    rcases this with rfl | rfl | rfl | rfl <;> exact absurd h (by decide)
  all_goals intro hc
  all_goals subst hc
  all_goals exact absurd h (by decide)

/-- Every rendered value begins with a character that is not whitespace and
closes nothing: parsing can always dispatch on it. -/
theorem renderJ_head (ind : Nat) (v : Jv) :
    ∃ c t, renderJ ind v = c :: t ∧ isWsC c = false ∧ c ≠ ']' ∧ c ≠ '}' := by
  have hlit : ∀ c : Char, c ∈ ['n', 't', 'f', '"', '[', '{', '-'] →
      isWsC c = false ∧ c ≠ ']' ∧ c ≠ '}' := by
    decide
  cases v with
  | nullv => exact ⟨'n', _, rfl, hlit 'n' (by decide)⟩
  | boolv b =>
      cases b
      case true => exact ⟨'t', _, rfl, hlit 't' (by decide)⟩
      case false => exact ⟨'f', _, rfl, hlit 'f' (by decide)⟩
  | strv s => exact ⟨'"', _, rfl, hlit '"' (by decide)⟩
  | numv i =>
      by_cases hi : i < 0
      · refine ⟨'-', natChars i.natAbs, by simp [renderJ, intChars, hi],
          hlit '-' (by decide)⟩
      · obtain ⟨c, t, hct, hc⟩ := natChars_head i.natAbs
        obtain ⟨hws, _, _, _, _, _, _, hbr, hbc, _⟩ := digit_shape hc
        refine ⟨c, t, ?_, hws, hbr, hbc⟩
        simp [renderJ, intChars, hi, hct]
  | arrv xs =>
      cases xs
      case nil => exact ⟨'[', _, rfl, hlit '[' (by decide)⟩
      case cons x xs => exact ⟨'[', _, rfl, hlit '[' (by decide)⟩
  | objv gs =>
      cases gs
      case nil => exact ⟨'{', _, rfl, hlit '{' (by decide)⟩
      case cons g gs => exact ⟨'{', _, rfl, hlit '{' (by decide)⟩

/-- Rendered values are nonempty. -/
theorem renderJ_len_pos (ind : Nat) (v : Jv) : 1 ≤ (renderJ ind v).length := by
  obtain ⟨c, t, hct, -, -, -⟩ := renderJ_head ind v
  rw [hct]
  simp

/-- `parseV` is insensitive to leading whitespace. -/
theorem parseV_ws (fuel : Nat) {w : List Char} (hw : allWsC w = true)
    (l : List Char) : parseV fuel (w ++ l) = parseV fuel l := by
  cases fuel with
  | zero => rfl
  | succ f =>
      simp only [parseV]
      rw [skipWsC_ws_append hw]

/-- Whitespace cons whitespace is whitespace. -/
theorem allWsC_cons {c : Char} {w : List Char} (hc : isWsC c = true)
    (hw : allWsC w = true) : allWsC (c :: w) = true := by
  simp [allWsC, List.all_cons, hc, hw] at hw ⊢
  exact hw

/-- One-step unfolding of `parseIts` at successor fuel. -/
theorem parseIts_step (f : Nat) (l : List Char) :
    parseIts (f + 1) l
      = match parseV f l with
        | none => none
        | some (v, r) =>
            match skipWsC r with
            | [] => none
            | c2 :: r2 =>
                if c2 = ',' then
                  match parseIts f r2 with
                  | some (vs, r3) => some (v :: vs, r3)
                  | none => none
                else if c2 = ']' then some ([v], r2)
                else none := rfl

/-- One-step unfolding of `parseFls` at successor fuel. -/
theorem parseFls_step (f : Nat) (l : List Char) :
    parseFls (f + 1) l
      = (match skipWsC l with
         | [] => none
         | c :: cs =>
             if c = '"' then
               match strBody cs with
               | none => none
               | some (k, r1) =>
                   match skipWsC r1 with
                   | [] => none
                   | c2 :: r2 =>
                       if c2 = ':' then
                         match parseV f r2 with
                         | none => none
                         | some (v, r3) =>
                             match skipWsC r3 with
                             | [] => none
                             | c3 :: r4 =>
                                 if c3 = ',' then
                                   match parseFls f r4 with
                                   | some (gs, r5) => some ((k, v) :: gs, r5)
                                   | none => none
                                 else if c3 = '}' then some ([(k, v)], r4)
                                 else none
                       else none
             else none) := rfl

/-- The parser's array branch, unfolded past the opening bracket. -/
theorem parseV_arr_step (f : Nat) (cs : List Char) :
    parseV (f + 1) ('[' :: cs)
      = (match skipWsC cs with
         | [] => none
         | c2 :: cs2 =>
             if c2 = ']' then some (.arrv [], cs2)
             else
               match parseIts f (c2 :: cs2) with
               | some (vs, r) => some (.arrv vs, r)
               | none => none) := rfl

/-- The parser's object branch, unfolded past the opening brace. -/
theorem parseV_obj_step (f : Nat) (cs : List Char) :
    parseV (f + 1) ('{' :: cs)
      = (match skipWsC cs with
         | [] => none
         | c2 :: cs2 =>
             if c2 = '}' then some (.objv [], cs2)
             else
               match parseFls f (c2 :: cs2) with
               | some (gs, r) => some (.objv gs, r)
               | none => none) := rfl

/-- Parsing a rendered integer value, with any continuation that does not
begin with a digit. -/
theorem parseV_num (f : Nat) (i : Int) (rest : List Char)
    (hrest : noDigHead rest = true) :
    parseV (f + 1) (intChars i ++ rest) = some (.numv i, rest) := by
  by_cases hi : i < 0
  · have harg : intChars i ++ rest = '-' :: (natChars i.natAbs ++ rest) := by
      simp [intChars, hi]
    have hstep : parseV (f + 1) ('-' :: (natChars i.natAbs ++ rest))
        = match parseIntCs ('-' :: (natChars i.natAbs ++ rest)) with
          | some (n, r) => some (.numv n, r)
          | none => none := rfl
    rw [harg, hstep, ← harg, parseIntCs_intChars i hrest]
  · obtain ⟨c, t, hct, hc⟩ := natChars_head i.natAbs
    obtain ⟨hws, hn, ht, hf, hq, hbk, hbc, _, _, _⟩ := digit_shape hc
    have harg : intChars i ++ rest = c :: (t ++ rest) := by
      simp [intChars, hi, hct]
    have hstep : parseV (f + 1) (c :: (t ++ rest))
        = match parseIntCs (c :: (t ++ rest)) with
          | some (n, r) => some (.numv n, r)
          | none => none := by
      rw [parseV.eq_def]
      simp [skipWsC, hws, hn, ht, hf, hq, hbk, hbc, hc]
    rw [harg, hstep, ← harg, parseIntCs_intChars i hrest]

/-- The member continuation of `parseFls` after the member's value has been
parsed: expect `,` and further members, or the closing `}`. -/
def flsCont (f : Nat) (k : List Char) (v : Jv) (r3 : List Char) :
    Option (List (List Char × Jv) × List Char) :=
  match skipWsC r3 with
  | [] => none
  | c3 :: r4 =>
      if c3 = ',' then
        match parseFls f r4 with
        | some (gs2, r5) => some ((k, v) :: gs2, r5)
        | none => none
      else if c3 = '}' then some ([(k, v)], r4)
      else none

/-- `parseFls` is insensitive to leading whitespace. -/
theorem parseFls_ws (fuel : Nat) {w : List Char} (hw : allWsC w = true)
    (l : List Char) : parseFls fuel (w ++ l) = parseFls fuel l := by
  cases fuel with
  | zero => rfl
  | succ f =>
      simp only [parseFls]
      rw [skipWsC_ws_append hw]

/-- `parseFls` on a rendered member head: consume the quoted key, the colon
and the single space, then parse the value with the member continuation. -/
theorem parseFls_field (f : Nat) (k : List Char) (z : List Char) :
    parseFls (f + 1) ('"' :: (escStr k ++ ('"' :: (':' :: (' ' :: z)))))
      = match parseV f z with
        | none => none
        | some (v, r3) => flsCont f k v r3 := by
  have h1 : parseFls (f + 1) ('"' :: (escStr k ++ ('"' :: (':' :: (' ' :: z)))))
      = (match strBody (escStr k ++ ('"' :: (':' :: (' ' :: z)))) with
         | none => none
         | some (k2, r1) =>
             match skipWsC r1 with
             | [] => none
             | c2 :: r2 =>
                 if c2 = ':' then
                   match parseV f r2 with
                   | none => none
                   | some (v, r3) => flsCont f k2 v r3
                 else none) := rfl
  rw [h1, strBody_escStr]
  have h2 : (match (some (k, ':' :: (' ' :: z)) :
        Option (List Char × List Char)) with
      | none => none
      | some (k2, r1) =>
          match skipWsC r1 with
          | [] => none
          | c2 :: r2 =>
              if c2 = ':' then
                match parseV f r2 with
                | none => none
                | some (v, r3) => flsCont f k2 v r3
              else none)
      = (match parseV f (' ' :: z) with
         | none => none
         | some (v, r3) => flsCont f k v r3) := rfl
  rw [h2]
  have hpw : parseV f (' ' :: z) = parseV f z := @parseV_ws f [' '] (by decide) z
  rw [hpw]

/-- Collapse the item match of `parseIts` once the leading value is known. -/
theorem its_post (f : Nat) (x : Jv) (r : List Char) :
    (match (some (x, r) : Option (Jv × List Char)) with
     | none => none
     | some (v, r') =>
         match skipWsC r' with
         | [] => none
         | c2 :: r2 =>
             if c2 = ',' then
               match parseIts f r2 with
               | some (vs, r3) => some (v :: vs, r3)
               | none => none
             else if c2 = ']' then some ([v], r2)
             else none)
    = (match skipWsC r with
       | [] => none
       | c2 :: r2 =>
           if c2 = ',' then
             match parseIts f r2 with
             | some (vs, r3) => some (x :: vs, r3)
             | none => none
           else if c2 = ']' then some ([x], r2)
           else none) := rfl

mutual

/-- Round trip of one value: parsing its rendering, at any indentation and
with enough fuel, returns exactly the value and the untouched continuation. -/
theorem rt_val : ∀ (v : Jv) (ind fuel : Nat) (rest : List Char),
    (renderJ ind v).length < fuel → noDigHead rest = true →
    parseV fuel (renderJ ind v ++ rest) = some (v, rest)
  | .nullv, ind, fuel, rest, hlen, _ => by
      cases fuel with
      | zero => exact absurd hlen (by omega)
      | succ f => rfl
  | .boolv b, ind, fuel, rest, hlen, _ => by
      cases fuel with
      | zero => exact absurd hlen (by omega)
      | succ f => cases b <;> rfl
  | .numv i, ind, fuel, rest, hlen, hrest => by
      cases fuel with
      | zero => exact absurd hlen (by omega)
      | succ f => exact parseV_num f i rest hrest
  | .strv s, ind, fuel, rest, hlen, _ => by
      cases fuel with
      | zero => exact absurd hlen (by omega)
      | succ f =>
          have harg : renderJ ind (.strv s) ++ rest
              = '"' :: (escStr s ++ ('"' :: rest)) := by
            simp [renderJ]
          have hstep : parseV (f + 1) ('"' :: (escStr s ++ ('"' :: rest)))
              = match strBody (escStr s ++ ('"' :: rest)) with
                | some (s2, r) => some (.strv s2, r)
                | none => none := rfl
          rw [harg, hstep, strBody_escStr]
  | .arrv [], ind, fuel, rest, hlen, _ => by
      cases fuel with
      | zero => exact absurd hlen (by omega)
      | succ f => rfl
  | .arrv (x :: xs), ind, fuel, rest, hlen, _ => by
      cases fuel with
      | zero => exact absurd hlen (by omega)
      | succ f =>
          obtain ⟨c0, t0, hct, hws0, hbr0, _⟩ := renderJ_head (ind + 1) x
          have harg : renderJ ind (.arrv (x :: xs)) ++ rest
              = '[' :: ('\n' :: (pad (2 * (ind + 1)) ++ (renderJ (ind + 1) x ++
                  (arrTail (ind + 1) xs ++ '\n' :: (pad (2 * ind) ++ (']' :: rest)))))) := by
            simp [renderJ]
          have hskip : skipWsC ('\n' :: (pad (2 * (ind + 1)) ++ (renderJ (ind + 1) x ++
              (arrTail (ind + 1) xs ++ '\n' :: (pad (2 * ind) ++ (']' :: rest))))))
              = c0 :: (t0 ++ (arrTail (ind + 1) xs ++ '\n' ::
                  (pad (2 * ind) ++ (']' :: rest)))) := by
            rw [show ('\n' :: (pad (2 * (ind + 1)) ++ (renderJ (ind + 1) x ++
                (arrTail (ind + 1) xs ++ '\n' :: (pad (2 * ind) ++ (']' :: rest))))))
              = (('\n' :: pad (2 * (ind + 1))) ++ (renderJ (ind + 1) x ++
                (arrTail (ind + 1) xs ++ '\n' :: (pad (2 * ind) ++ (']' :: rest)))))
              from rfl]
            rw [skipWsC_ws_append (allWsC_cons (by decide) (allWsC_pad _)), hct,
              List.cons_append]
            exact skipWsC_nws hws0 _
          have hlen' : (renderJ (ind + 1) x).length + (arrTail (ind + 1) xs).length + 1
              < f := by
            have hexp : (renderJ ind (.arrv (x :: xs))).length
                = 2 + (2 * (ind + 1)) + ((renderJ (ind + 1) x).length +
                  ((arrTail (ind + 1) xs).length + (1 + (2 * ind + 1)))) := by
              simp [renderJ, pad]
              omega
            omega
          have hits := rt_items x xs (ind + 1) f [] (pad (2 * ind)) rest rfl
            (allWsC_pad _) hlen'
          rw [List.nil_append] at hits
          rw [harg, parseV_arr_step, hskip]
          have hmatch : (match c0 :: (t0 ++ (arrTail (ind + 1) xs ++ '\n' ::
                (pad (2 * ind) ++ (']' :: rest)))) with
              | [] => none
              | c2 :: cs2 =>
                  if c2 = ']' then some (Jv.arrv [], cs2)
                  else
                    match parseIts f (c2 :: cs2) with
                    | some (vs, r) => some (Jv.arrv vs, r)
                    | none => none)
              = (if c0 = ']' then some (Jv.arrv [], t0 ++ (arrTail (ind + 1) xs ++ '\n' ::
                    (pad (2 * ind) ++ (']' :: rest))))
                 else
                   match parseIts f (c0 :: (t0 ++ (arrTail (ind + 1) xs ++ '\n' ::
                       (pad (2 * ind) ++ (']' :: rest))))) with
                   | some (vs, r) => some (Jv.arrv vs, r)
                   | none => none) := rfl
          rw [hmatch, if_neg hbr0, ← List.cons_append, ← hct, hits]
  | .objv [], ind, fuel, rest, hlen, _ => by
      cases fuel with
      | zero => exact absurd hlen (by omega)
      | succ f => rfl
  | .objv ((k1, v1) :: gs), ind, fuel, rest, hlen, _ => by
      cases fuel with
      | zero => exact absurd hlen (by omega)
      | succ f =>
          have harg : renderJ ind (.objv ((k1, v1) :: gs)) ++ rest
              = '{' :: ('\n' :: (pad (2 * (ind + 1)) ++ (fieldChars (ind + 1) (k1, v1) ++
                  (objTail (ind + 1) gs ++ '\n' :: (pad (2 * ind) ++ ('}' :: rest)))))) := by
            simp [renderJ]
          have hskip : skipWsC ('\n' :: (pad (2 * (ind + 1)) ++
              (fieldChars (ind + 1) (k1, v1) ++
              (objTail (ind + 1) gs ++ '\n' :: (pad (2 * ind) ++ ('}' :: rest))))))
              = '"' :: ((escStr k1 ++ ('"' :: (':' :: (' ' :: renderJ (ind + 1) v1)))) ++
                  (objTail (ind + 1) gs ++ '\n' :: (pad (2 * ind) ++ ('}' :: rest)))) := by
            rw [show ('\n' :: (pad (2 * (ind + 1)) ++ (fieldChars (ind + 1) (k1, v1) ++
                (objTail (ind + 1) gs ++ '\n' :: (pad (2 * ind) ++ ('}' :: rest))))))
              = (('\n' :: pad (2 * (ind + 1))) ++ (fieldChars (ind + 1) (k1, v1) ++
                (objTail (ind + 1) gs ++ '\n' :: (pad (2 * ind) ++ ('}' :: rest)))))
              from rfl]
            rw [skipWsC_ws_append (allWsC_cons (by decide) (allWsC_pad _))]
            rw [show fieldChars (ind + 1) (k1, v1)
                = '"' :: (escStr k1 ++ ('"' :: (':' :: (' ' :: renderJ (ind + 1) v1))))
              from rfl]
            rw [List.cons_append]
            exact skipWsC_nws (by decide) _
          have hlen' : (fieldChars (ind + 1) (k1, v1)).length +
              (objTail (ind + 1) gs).length + 1 < f := by
            have hexp : (renderJ ind (.objv ((k1, v1) :: gs))).length
                = 2 + (2 * (ind + 1)) + ((fieldChars (ind + 1) (k1, v1)).length +
                  ((objTail (ind + 1) gs).length + (1 + (2 * ind + 1)))) := by
              simp [renderJ, pad]
              omega
            omega
          have hgs := rt_fields (k1, v1) gs (ind + 1) f [] (pad (2 * ind)) rest rfl
            (allWsC_pad _) hlen'
          rw [List.nil_append] at hgs
          rw [show (fieldChars (ind + 1) (k1, v1) ++ (objTail (ind + 1) gs ++ '\n' ::
              (pad (2 * ind) ++ ('}' :: rest))))
            = '"' :: ((escStr k1 ++ ('"' :: (':' :: (' ' :: renderJ (ind + 1) v1)))) ++
                (objTail (ind + 1) gs ++ '\n' :: (pad (2 * ind) ++ ('}' :: rest))))
            from by
              rw [show fieldChars (ind + 1) (k1, v1)
                  = '"' :: (escStr k1 ++ ('"' :: (':' :: (' ' :: renderJ (ind + 1) v1))))
                from rfl, List.cons_append]] at hgs
          rw [harg, parseV_obj_step, hskip]
          have hmatch : (match ('"' :: ((escStr k1 ++ ('"' :: (':' :: (' ' ::
                renderJ (ind + 1) v1)))) ++ (objTail (ind + 1) gs ++ '\n' ::
                (pad (2 * ind) ++ ('}' :: rest))))) with
              | [] => none
              | c2 :: cs2 =>
                  if c2 = '}' then some (Jv.objv [], cs2)
                  else
                    match parseFls f (c2 :: cs2) with
                    | some (gs2, r) => some (Jv.objv gs2, r)
                    | none => none)
              = (match parseFls f ('"' :: ((escStr k1 ++ ('"' :: (':' :: (' ' ::
                    renderJ (ind + 1) v1)))) ++ (objTail (ind + 1) gs ++ '\n' ::
                    (pad (2 * ind) ++ ('}' :: rest))))) with
                 | some (gs2, r) => some (Jv.objv gs2, r)
                 | none => none) := rfl
          rw [hmatch, hgs]
termination_by v _ _ _ _ _ => sizeOf v

/-- Round trip of a non-empty item list: parsing the rendered items (after any
leading whitespace) up to the closing bracket returns the items. -/
theorem rt_items : ∀ (x : Jv) (xs : List Jv) (ind fuel : Nat) (w1 w2 rest : List Char),
    allWsC w1 = true → allWsC w2 = true →
    (renderJ ind x).length + (arrTail ind xs).length + 1 < fuel →
    parseIts fuel (w1 ++ (renderJ ind x ++ (arrTail ind xs ++ '\n' ::
        (w2 ++ (']' :: rest)))))
      = some (x :: xs, rest)
  | x, [], ind, fuel, w1, w2, rest, hw1, hw2, hlen => by
      cases fuel with
      | zero => exact absurd hlen (by omega)
      | succ f =>
          have hxlen : (renderJ ind x).length < f := by
            omega
          rw [parseIts_step, parseV_ws f hw1]
          rw [show arrTail ind ([] : List Jv) = ([] : List Char) from rfl,
            List.nil_append]
          rw [rt_val x ind f ('\n' :: (w2 ++ (']' :: rest))) hxlen rfl]
          rw [its_post]
          have hskip : skipWsC ('\n' :: (w2 ++ (']' :: rest))) = ']' :: rest := by
            rw [show ('\n' :: (w2 ++ (']' :: rest))) = (('\n' :: w2) ++ (']' :: rest))
              from rfl]
            rw [skipWsC_ws_append (allWsC_cons (by decide) hw2)]
            exact skipWsC_nws (by decide) _
          rw [hskip]
          rfl
  | x, y :: ys, ind, fuel, w1, w2, rest, hw1, hw2, hlen => by
      cases fuel with
      | zero => exact absurd hlen (by omega)
      | succ f =>
          have htail : arrTail ind (y :: ys)
              = ',' :: ('\n' :: (pad (2 * ind) ++ (renderJ ind y ++ arrTail ind ys))) :=
            rfl
          have hlentail : (arrTail ind (y :: ys)).length
              = 2 + 2 * ind + ((renderJ ind y).length + (arrTail ind ys).length) := by
            rw [htail]
            simp [pad]
            omega
          have hxlen : (renderJ ind x).length < f := by omega
          have hylen : (renderJ ind y).length + (arrTail ind ys).length + 1 < f := by
            have hxpos := renderJ_len_pos ind x
            omega
          rw [parseIts_step, parseV_ws f hw1, htail]
          rw [show (renderJ ind x ++ ((',' :: ('\n' :: (pad (2 * ind) ++
              (renderJ ind y ++ arrTail ind ys)))) ++ '\n' :: (w2 ++ (']' :: rest))))
            = (renderJ ind x ++ (',' :: ('\n' :: (pad (2 * ind) ++
              (renderJ ind y ++ (arrTail ind ys ++ '\n' :: (w2 ++ (']' :: rest))))))))
            from by simp]
          rw [rt_val x ind f (',' :: ('\n' :: (pad (2 * ind) ++
            (renderJ ind y ++ (arrTail ind ys ++ '\n' :: (w2 ++ (']' :: rest)))))))
            hxlen rfl]
          rw [its_post]
          have hits := rt_items y ys ind f ('\n' :: pad (2 * ind)) w2 rest
            (allWsC_cons (by decide) (allWsC_pad _)) hw2 hylen
          rw [show (('\n' :: pad (2 * ind)) ++ (renderJ ind y ++ (arrTail ind ys ++
              '\n' :: (w2 ++ (']' :: rest)))))
            = ('\n' :: (pad (2 * ind) ++ (renderJ ind y ++ (arrTail ind ys ++
              '\n' :: (w2 ++ (']' :: rest)))))) from rfl] at hits
          have hred : (match skipWsC (',' :: ('\n' :: (pad (2 * ind) ++
                (renderJ ind y ++ (arrTail ind ys ++ '\n' ::
                (w2 ++ (']' :: rest))))))) with
              | [] => none
              | c2 :: r2 =>
                  if c2 = ',' then
                    match parseIts f r2 with
                    | some (vs, r3) => some (x :: vs, r3)
                    | none => none
                  else if c2 = ']' then some ([x], r2)
                  else none)
            = (match parseIts f ('\n' :: (pad (2 * ind) ++ (renderJ ind y ++
                (arrTail ind ys ++ '\n' :: (w2 ++ (']' :: rest)))))) with
               | some (vs, r3) => some (x :: vs, r3)
               | none => none) := rfl
          rw [hred, hits]
termination_by x xs _ _ _ _ _ _ _ _ => 1 + sizeOf x + sizeOf xs

/-- Round trip of a non-empty member list: parsing the rendered members (after
any leading whitespace) up to the closing brace returns the members. -/
theorem rt_fields : ∀ (g : List Char × Jv) (gs : List (List Char × Jv))
    (ind fuel : Nat) (w1 w2 rest : List Char),
    allWsC w1 = true → allWsC w2 = true →
    (fieldChars ind g).length + (objTail ind gs).length + 1 < fuel →
    parseFls fuel (w1 ++ (fieldChars ind g ++ (objTail ind gs ++ '\n' ::
        (w2 ++ ('}' :: rest)))))
      = some (g :: gs, rest)
  | (k, v), gs, ind, fuel, w1, w2, rest, hw1, hw2, hlen => by
      cases fuel with
      | zero => exact absurd hlen (by omega)
      | succ f =>
          have hflen : (fieldChars ind (k, v)).length
              = 4 + (escStr k).length + (renderJ ind v).length := by
            simp [fieldChars]
            omega
          have hvlen : (renderJ ind v).length < f := by omega
          rw [parseFls_ws (f + 1) hw1]
          rw [show (fieldChars ind (k, v) ++ (objTail ind gs ++ '\n' ::
              (w2 ++ ('}' :: rest))))
            = '"' :: (escStr k ++ ('"' :: (':' :: (' ' :: (renderJ ind v ++
              (objTail ind gs ++ '\n' :: (w2 ++ ('}' :: rest)))))))) from by
            simp [fieldChars]]
          rw [parseFls_field]
          cases gs with
          | nil =>
              rw [show objTail ind ([] : List (List Char × Jv)) = ([] : List Char)
                from rfl, List.nil_append]
              rw [rt_val v ind f ('\n' :: (w2 ++ ('}' :: rest))) hvlen rfl]
              have hskip : skipWsC ('\n' :: (w2 ++ ('}' :: rest))) = '}' :: rest := by
                rw [show ('\n' :: (w2 ++ ('}' :: rest)))
                  = (('\n' :: w2) ++ ('}' :: rest)) from rfl]
                rw [skipWsC_ws_append (allWsC_cons (by decide) hw2)]
                exact skipWsC_nws (by decide) _
              have hpost : (match (some (v, '\n' :: (w2 ++ ('}' :: rest))) :
                    Option (Jv × List Char)) with
                  | none => none
                  | some (v2, r3) => flsCont f k v2 r3)
                  = flsCont f k v ('\n' :: (w2 ++ ('}' :: rest))) := rfl
              rw [hpost]
              rw [show flsCont f k v ('\n' :: (w2 ++ ('}' :: rest)))
                = (match skipWsC ('\n' :: (w2 ++ ('}' :: rest))) with
                   | [] => none
                   | c3 :: r4 =>
                       if c3 = ',' then
                         match parseFls f r4 with
                         | some (gs2, r5) => some ((k, v) :: gs2, r5)
                         | none => none
                       else if c3 = '}' then some ([(k, v)], r4)
                       else none) from rfl]
              rw [hskip]
              rfl
          | cons g2 gs2 =>
              have htail : objTail ind (g2 :: gs2)
                  = ',' :: ('\n' :: (pad (2 * ind) ++ (fieldChars ind g2 ++
                    objTail ind gs2))) := rfl
              have hlentail : (objTail ind (g2 :: gs2)).length
                  = 2 + 2 * ind + ((fieldChars ind g2).length +
                    (objTail ind gs2).length) := by
                rw [htail]
                simp [pad]
                omega
              have hglen : (fieldChars ind g2).length + (objTail ind gs2).length + 1
                  < f := by omega
              rw [htail]
              rw [show (renderJ ind v ++ ((',' :: ('\n' :: (pad (2 * ind) ++
                  (fieldChars ind g2 ++ objTail ind gs2)))) ++ '\n' ::
                  (w2 ++ ('}' :: rest))))
                = (renderJ ind v ++ (',' :: ('\n' :: (pad (2 * ind) ++
                  (fieldChars ind g2 ++ (objTail ind gs2 ++ '\n' ::
                  (w2 ++ ('}' :: rest)))))))) from by simp]
              rw [rt_val v ind f (',' :: ('\n' :: (pad (2 * ind) ++
                (fieldChars ind g2 ++ (objTail ind gs2 ++ '\n' ::
                (w2 ++ ('}' :: rest))))))) hvlen rfl]
              have hgs := rt_fields g2 gs2 ind f ('\n' :: pad (2 * ind)) w2 rest
                (allWsC_cons (by decide) (allWsC_pad _)) hw2 hglen
              rw [show (('\n' :: pad (2 * ind)) ++ (fieldChars ind g2 ++
                  (objTail ind gs2 ++ '\n' :: (w2 ++ ('}' :: rest)))))
                = ('\n' :: (pad (2 * ind) ++ (fieldChars ind g2 ++
                  (objTail ind gs2 ++ '\n' :: (w2 ++ ('}' :: rest))))))
                from rfl] at hgs
              have hpost : (match (some (v, ',' :: ('\n' :: (pad (2 * ind) ++
                    (fieldChars ind g2 ++ (objTail ind gs2 ++ '\n' ::
                    (w2 ++ ('}' :: rest))))))) : Option (Jv × List Char)) with
                  | none => none
                  | some (v2, r3) => flsCont f k v2 r3)
                  = (match parseFls f ('\n' :: (pad (2 * ind) ++
                      (fieldChars ind g2 ++ (objTail ind gs2 ++ '\n' ::
                      (w2 ++ ('}' :: rest)))))) with
                     | some (gs3, r5) => some ((k, v) :: gs3, r5)
                     | none => none) := rfl
              rw [hpost, hgs]
termination_by g gs _ _ _ _ _ _ _ _ => 1 + sizeOf g + sizeOf gs

end

/-- The full codec round trip: `JSON.parse` of `JSON.stringify(v, null, 2)`
returns exactly `v`, for every JSON value. -/
theorem parseDoc_renderJ (v : Jv) : parseDoc (renderJ 0 v) = some v := by
  unfold parseDoc
  have h := rt_val v 0 ((renderJ 0 v).length + 1) [] (by omega) rfl
  rw [List.append_nil] at h
  rw [h]
  rfl

/-- The JSON value `JSON.stringify` sees for one order record: the object's
properties in declaration order, with `undefined` optional properties
(`driverId`, `employeeId`, `status`) omitted, exactly as `JSON.stringify`
drops undefined-valued keys. -/
def encodeOrder (o : Order) : Jv :=
  .objv (
    [("id".data, .strv o.id.data),
     ("customer".data, .strv o.customer.data),
     ("cargoDescription".data, .strv o.cargoDescription.data),
     ("price".data, .numv o.price),
     ("pickupTime".data, .strv o.pickupTime.data),
     ("pickupAddress".data, .strv o.pickupAddress.data),
     ("deliverBeforeTime".data, .strv o.deliverBeforeTime.data),
     ("deliverBeforeAddress".data, .strv o.deliverBeforeAddress.data),
     ("equipmentType".data, .strv o.equipmentType.data)]
    ++ (match o.driverId with
        | some d => [("driverId".data, .strv d.data)]
        | none => [])
    ++ (match o.employeeId with
        | some e => [("employeeId".data, .strv e.data)]
        | none => [])
    ++ (match o.status with
        | some .active => [("status".data, .strv "active".data)]
        | some .finished => [("status".data, .strv "finished".data)]
        | none => []))

/-- An order collection as a JSON value. -/
def encodeOrders (orders : List Order) : Jv :=
  .arrv (orders.map encodeOrder)

/-- `exportAsJSON` from `src/utils/storage.ts` lines 32-43, as the character
content of the downloaded file: `JSON.stringify(data, null, 2)`. The Blob /
anchor-click plumbing only delivers these characters to the browser. -/
def exportAsJSON (orders : List Order) : List Char :=
  renderJ 0 (encodeOrders orders)

/-- `importFromJSON` from `src/utils/storage.ts` lines 46-60: `JSON.parse` of
the file's text, `none` when the text is not valid JSON (the promise
rejection path). -/
def importFromJSON (content : List Char) : Option Jv :=
  parseDoc content

/-- JavaScript property access on a parsed object: the value at a key. -/
def getField (fs : List (List Char × Jv)) (k : List Char) : Option Jv :=
  match fs.find? (fun f => f.1 == k) with
  | some f => some f.2
  | none => none

/-- Read a required string property. -/
def asStr : Option Jv → Option String
  | some (.strv s) => some (String.mk s)
  | _ => none

/-- Read a required numeric property. -/
def asNum : Option Jv → Option Int
  | some (.numv n) => some n
  | _ => none

/-- Read an optional string property (`undefined` when the key is absent). -/
def decOptStr : Option Jv → Option (Option String)
  | none => some none
  | some (.strv s) => some (some (String.mk s))
  | _ => none

/-- Read the optional status property. -/
def decStatus : Option Jv → Option (Option OrderStatus)
  | none => some none
  | some (.strv s) =>
      if s == "active".data then some (some .active)
      else if s == "finished".data then some (some .finished)
      else none
  | _ => none

/-- Read an imported JSON object field by field into an `Order` record. -/
def decodeOrder (v : Jv) : Option Order :=
  match v with
  | .objv fs =>
      (asStr (getField fs "id".data)).bind fun i =>
      (asStr (getField fs "customer".data)).bind fun c =>
      (asStr (getField fs "cargoDescription".data)).bind fun cd =>
      (asNum (getField fs "price".data)).bind fun p =>
      (asStr (getField fs "pickupTime".data)).bind fun pt =>
      (asStr (getField fs "pickupAddress".data)).bind fun pa =>
      (asStr (getField fs "deliverBeforeTime".data)).bind fun dt =>
      (asStr (getField fs "deliverBeforeAddress".data)).bind fun da =>
      (asStr (getField fs "equipmentType".data)).bind fun et =>
      (decOptStr (getField fs "driverId".data)).bind fun dr =>
      (decOptStr (getField fs "employeeId".data)).bind fun em =>
      (decStatus (getField fs "status".data)).bind fun st =>
      some ⟨i, c, cd, p, pt, pa, dt, da, et, dr, em, st⟩
  | _ => none

/-- Read an imported JSON array element by element into an order list. -/
def decodeOrderList : List Jv → Option (List Order)
  | [] => some []
  | v :: vs =>
      (decodeOrder v).bind fun o =>
      (decodeOrderList vs).map fun os => o :: os

/-- Read a whole imported JSON document as an order collection. -/
def decodeOrders (v : Jv) : Option (List Order) :=
  match v with
  | .arrv items => decodeOrderList items
  | _ => none

/-- Reading back an encoded order recovers every field exactly. -/
theorem decodeOrder_encodeOrder (o : Order) : decodeOrder (encodeOrder o) = some o := by
  obtain ⟨i, c, cd, p, pt, pa, dt, da, et, dr, em, st⟩ := o
  cases st with
  | none => cases dr <;> cases em <;> rfl
  | some s => cases s <;> cases dr <;> cases em <;> rfl

/-- Reading back an encoded collection recovers every order. -/
theorem decodeOrderList_map (orders : List Order) :
    decodeOrderList (orders.map encodeOrder) = some orders := by
  induction orders with
  | nil => rfl
  | cons o os ih =>
      simp [decodeOrderList, decodeOrder_encodeOrder, ih]

/-- C8: export-then-import round trip. Exporting an order collection with
`exportAsJSON` (pretty-printed `JSON.stringify`) and importing the produced
file with `importFromJSON` (`JSON.parse`) yields exactly the serialized
collection back — and reading its fields recovers a collection field-for-field
equal to the original, for every order collection. (Numbers are modelled as
integers in this embedding.) -/
theorem C8_export_import_roundtrip (orders : List Order) :
    importFromJSON (exportAsJSON orders) = some (encodeOrders orders) ∧
    decodeOrders (encodeOrders orders) = some orders := by
  constructor
  · exact parseDoc_renderJ (encodeOrders orders)
  · simp [decodeOrders, encodeOrders, decodeOrderList_map]

end TS
